import Mathlib

/-!
Shallow embedding of `data-oriented-sort` (`src/lib.rs`).

The crate stores a collection of five-field records both as an
array-of-structures (`Classic`) and as a structure-of-arrays
(`DataOriented`), computes a sorting permutation over record indices
(`permutations_unstable_by_key`) and applies it to each field vector
(`apply_permutations`).

Modelling choices:
* Rust machine integers (`u32`, `u8`, `u16`) become `Nat`; no arithmetic is
  performed on field values, only `Ord` comparison, so widths are irrelevant.
* `Vec<T>` becomes `List T`; `slice::sort_unstable`/`sort_unstable_by_key`
  (contract: output is a permutation of the input, sorted by the comparator)
  is modelled by the deterministic comparison sort `List.insertionSort`,
  which satisfies exactly that contract.
* `assert_eq!` (panic) and the `get_unchecked` out-of-bounds branch (UB) are
  totalized into an `Except ApplyError` result, with distinct error
  constructors for the two failure modes.
* the random generator (`rand` crate, external) is abstracted into an
  explicit state-passing model `RngModel`.
-/

/-- Embedding of `struct Classic` (src/lib.rs lines 9-16): one row-oriented
record with the five fields in their declared order. -/
structure Classic where
  query_index : Nat
  distance : Nat
  «attribute» : Nat
  word_index : Nat
  is_exact : Bool
deriving DecidableEq, Repr

/-- The composite sort key of a `Classic`: the tuple of its five fields,
compared lexicographically left to right, exactly the derived `Ord` of the
Rust struct (fields in declared order, `false < true` for `bool`). -/
def Classic.key (c : Classic) : Nat ×ₗ Nat ×ₗ Nat ×ₗ Nat ×ₗ Bool :=
  toLex (c.query_index, toLex (c.distance, toLex (c.«attribute»,
    toLex (c.word_index, c.is_exact))))

theorem Classic.key_injective : Function.Injective Classic.key := by
  intro a b h
  cases a; cases b
  simp only [Classic.key, toLex_inj, Prod.mk.injEq] at h
  obtain ⟨h1, h2, h3, h4, h5⟩ := h
  simp_all

/-- The total order on `Classic` derived in Rust
(`#[derive(PartialOrd, Ord, ...)]`): lexicographic over the field tuple. -/
instance : LinearOrder Classic :=
  LinearOrder.lift' Classic.key Classic.key_injective

theorem Classic.le_iff_key (a b : Classic) : a ≤ b ↔ a.key ≤ b.key :=
  Iff.rfl

/-- Embedding of `struct DataOriented` (src/lib.rs lines 41-48): the
structure-of-arrays view, one list per field. -/
structure DataOriented where
  query_index : List Nat
  distance : List Nat
  «attribute» : List Nat
  word_index : List Nat
  is_exact : List Bool
deriving DecidableEq, Repr

/-- Embedding of `DataOriented::len` (src/lib.rs lines 81-83): the length of
the `query_index` vector. -/
def DataOriented.len (d : DataOriented) : Nat :=
  d.query_index.length

/-- The logical record stored at index `i` of the columnar view: the tuple
`(query_index[i], distance[i], attribute[i], word_index[i], is_exact[i])`,
with accesses totalized by a default (`0` / `false`). -/
def DataOriented.record (d : DataOriented) (i : Nat) : Classic :=
  { query_index := d.query_index.getD i 0
    distance := d.distance.getD i 0
    «attribute» := d.«attribute».getD i 0
    word_index := d.word_index.getD i 0
    is_exact := d.is_exact.getD i false }

/-- The key closure of the test `data_oriented_sort_is_valid`
(src/lib.rs lines 142-150): the five-field tuple at index `i`. -/
def DataOriented.sortKey (d : DataOriented) (i : Nat) :
    Nat ×ₗ Nat ×ₗ Nat ×ₗ Nat ×ₗ Bool :=
  (d.record i).key

/-- The columnar view `d` and the row-oriented view `cs` represent the same
record sequence: each field list of `d` is the projection of that field over
`cs`. -/
def represents (d : DataOriented) (cs : List Classic) : Prop :=
  d.query_index = cs.map Classic.query_index ∧
  d.distance = cs.map Classic.distance ∧
  d.«attribute» = cs.map Classic.«attribute» ∧
  d.word_index = cs.map Classic.word_index ∧
  d.is_exact = cs.map Classic.is_exact

instance (d : DataOriented) (cs : List Classic) : Decidable (represents d cs) := by
  unfold represents; infer_instance

/-- Model of Rust `slice::sort_unstable` (used on `Vec<Classic>` in the
test): a comparison sort producing a permutation of the input sorted by the
element order. -/
def sort_unstable [LinearOrder α] (l : List α) : List α :=
  l.insertionSort (fun a b => a ≤ b)

/-- Model of `slice::sort_unstable_by_key`: a comparison sort by the image
under the key function `f`. -/
def sort_unstable_by_key [LinearOrder K] (f : α → K) (l : List α) : List α :=
  l.insertionSort (fun a b => f a ≤ f b)

/-- Embedding of `permutations_unstable_by_key` (src/lib.rs lines 86-93):
collect `0..len` and sort it (unstably) by the key function `f`. -/
def permutations_unstable_by_key [LinearOrder K] (len : Nat) (f : Nat → K) :
    List Nat :=
  sort_unstable_by_key f (List.range len)

/-- The two ways `apply_permutations` can fail, totalized: the
`assert_eq!(permutations.len(), vec.len())` panic (src/lib.rs line 99) and
the undefined behaviour of `vec.get_unchecked(i)` when `i` is out of bounds
(src/lib.rs line 106). -/
inductive ApplyError where
  | lengthMismatch : ApplyError
  | outOfBounds : Nat → ApplyError
deriving DecidableEq, Repr

/-- The gathering loop of `apply_permutations` (src/lib.rs lines 104-108):
for each index of `permutations` in order, read `vec[i]` (totalized access)
and push it onto the new vector. -/
def gatherElems (vec : List α) : List Nat → Except ApplyError (List α)
  | [] => Except.ok []
  | i :: rest =>
    match vec[i]? with
    | none => Except.error (ApplyError.outOfBounds i)
    | some x =>
      match gatherElems vec rest with
      | Except.error e => Except.error e
      | Except.ok xs => Except.ok (x :: xs)

/-- Embedding of `apply_permutations` (src/lib.rs lines 98-110): assert the
two lengths agree, then replace `vec` by the gathered new vector. The Rust
function mutates `vec` in place; the embedding returns the new value. -/
def apply_permutations (permutations : List Nat) (vec : List α) :
    Except ApplyError (List α) :=
  if permutations.length = vec.length then gatherElems vec permutations
  else Except.error ApplyError.lengthMismatch

/-- The full columnar sort of the test `data_oriented_sort_is_valid`
(src/lib.rs lines 142-156): compute the permutation from the five-field key
and apply it to each of the five field vectors. -/
def sortDataOriented (d : DataOriented) : Except ApplyError DataOriented := do
  let permutations := permutations_unstable_by_key d.len d.sortKey
  let q ← apply_permutations permutations d.query_index
  let di ← apply_permutations permutations d.distance
  let a ← apply_permutations permutations d.«attribute»
  let w ← apply_permutations permutations d.word_index
  let e ← apply_permutations permutations d.is_exact
  return { query_index := q, distance := di, «attribute» := a,
           word_index := w, is_exact := e }

/-! ### Helper lemmas about the embedded operations -/

theorem gatherElems_eq_map (vec : List α) (P : List Nat) (dflt : α)
    (h : ∀ i ∈ P, i < vec.length) :
    gatherElems vec P = Except.ok (P.map (fun i => vec.getD i dflt)) := by
  induction P with
  | nil => rfl
  | cons i rest ih =>
    have hi : i < vec.length := h i (List.mem_cons_self i rest)
    have hrest : ∀ j ∈ rest, j < vec.length := fun j hj => h j (List.mem_cons_of_mem i hj)
    have hget : vec[i]? = some (vec.getD i dflt) := by
      rw [List.getElem?_eq_getElem hi, List.getD_eq_getElem?_getD,
        List.getElem?_eq_getElem hi]
      rfl
    simp only [gatherElems, hget, ih hrest, List.map_cons]

theorem apply_permutations_eq_map (P : List Nat) (vec : List α) (dflt : α)
    (hlen : P.length = vec.length) (h : ∀ i ∈ P, i < vec.length) :
    apply_permutations P vec = Except.ok (P.map (fun i => vec.getD i dflt)) := by
  rw [apply_permutations, if_pos hlen, gatherElems_eq_map vec P dflt h]

theorem map_getD_range (l : List α) (d : α) :
    (List.range l.length).map (fun i => l.getD i d) = l := by
  induction l with
  | nil => rfl
  | cons x xs ih =>
    rw [List.length_cons, List.range_succ_eq_map, List.map_cons, List.map_map]
    have hmap : ((fun i => (x :: xs).getD i d) ∘ Nat.succ) = fun i => xs.getD i d := by
      funext i
      simp only [Function.comp_apply]
      exact List.getD_cons_succ
    rw [List.getD_cons_zero, hmap, ih]

theorem getD_map_lt (g : Nat → α) (P : List Nat) (j : Nat) (hj : j < P.length)
    (dflt : α) : (P.map g).getD j dflt = g (P.getD j 0) := by
  have hj' : j < (P.map g).length := by simpa using hj
  rw [List.getD_eq_getElem?_getD, List.getElem?_eq_getElem hj',
    List.getD_eq_getElem?_getD, List.getElem?_eq_getElem hj]
  simp

theorem permutations_perm_range [LinearOrder K] (len : Nat) (f : Nat → K) :
    (permutations_unstable_by_key len f).Perm (List.range len) :=
  List.perm_insertionSort _ _

theorem permutations_sorted [LinearOrder K] (len : Nat) (f : Nat → K) :
    List.Sorted (fun a b => f a ≤ f b) (permutations_unstable_by_key len f) := by
  haveI : IsTotal Nat (fun a b => f a ≤ f b) := ⟨fun a b => le_total (f a) (f b)⟩
  haveI : IsTrans Nat (fun a b => f a ≤ f b) := ⟨fun _ _ _ h1 h2 => le_trans h1 h2⟩
  exact List.sorted_insertionSort _ _

theorem permutations_length [LinearOrder K] (len : Nat) (f : Nat → K) :
    (permutations_unstable_by_key len f).length = len := by
  have := (permutations_perm_range len f).length_eq
  simpa using this

theorem mem_lt_of_perm_range {P : List Nat} {n : Nat} (hP : P.Perm (List.range n)) :
    ∀ i ∈ P, i < n := fun _ hi => List.mem_range.mp (hP.mem_iff.mp hi)

/-! ### Dataset construction (`new_classics`, `DataOriented::new`) -/

/-- Abstract model of the external `rand::Rng` generator (the crate clones
one generator per field stream): a state type with one sampling step per
sampled field type (`u32`, `u8`, `u16`, `bool`), each returning a value and
the successor state. -/
structure RngModel (σ : Type) where
  nextU32 : σ → Nat × σ
  nextU8 : σ → Nat × σ
  nextU16 : σ → Nat × σ
  nextBool : σ → Bool × σ

/-- The first `n` samples of one stream (`rng.sample_iter(Standard).take(n)`). -/
def sampleList (next : σ → β × σ) : σ → Nat → List β
  | _, 0 => []
  | s, n + 1 => (next s).1 :: sampleList next (next s).2 n

/-- The loop body of `new_classics` (src/lib.rs lines 27-36): five stream
states advance in lockstep, one record is produced per iteration. -/
def new_classics_go (R : RngModel σ) (s1 s2 s3 s4 s5 : σ) : Nat → List Classic
  | 0 => []
  | n + 1 =>
    { query_index := (R.nextU32 s1).1, distance := (R.nextU8 s2).1,
      «attribute» := (R.nextU16 s3).1, word_index := (R.nextU16 s4).1,
      is_exact := (R.nextBool s5).1 } ::
      new_classics_go R (R.nextU32 s1).2 (R.nextU8 s2).2 (R.nextU16 s3).2
        (R.nextU16 s4).2 (R.nextBool s5).2 n

/-- Embedding of `new_classics` (src/lib.rs lines 18-39): each of the five
iterators starts from a clone of the same generator state `rng`. -/
def new_classics (R : RngModel σ) (rng : σ) (len : Nat) : List Classic :=
  new_classics_go R rng rng rng rng rng len

/-- Embedding of `DataOriented::new` (src/lib.rs lines 64-79): each field
vector takes `len` samples of a stream started from a clone of `rng`. -/
def DataOriented.new (R : RngModel σ) (rng : σ) (len : Nat) : DataOriented :=
  { query_index := sampleList R.nextU32 rng len
    distance := sampleList R.nextU8 rng len
    «attribute» := sampleList R.nextU16 rng len
    word_index := sampleList R.nextU16 rng len
    is_exact := sampleList R.nextBool rng len }

theorem new_classics_go_map_query (R : RngModel σ) :
    ∀ (n : Nat) (s1 s2 s3 s4 s5 : σ),
      (new_classics_go R s1 s2 s3 s4 s5 n).map Classic.query_index
        = sampleList R.nextU32 s1 n
  | 0, _, _, _, _, _ => rfl
  | n + 1, s1, s2, s3, s4, s5 => by
    simp only [new_classics_go, sampleList, List.map_cons]
    rw [new_classics_go_map_query R n]

theorem new_classics_go_map_distance (R : RngModel σ) :
    ∀ (n : Nat) (s1 s2 s3 s4 s5 : σ),
      (new_classics_go R s1 s2 s3 s4 s5 n).map Classic.distance
        = sampleList R.nextU8 s2 n
  | 0, _, _, _, _, _ => rfl
  | n + 1, s1, s2, s3, s4, s5 => by
    simp only [new_classics_go, sampleList, List.map_cons]
    rw [new_classics_go_map_distance R n]

theorem new_classics_go_map_attribute (R : RngModel σ) :
    ∀ (n : Nat) (s1 s2 s3 s4 s5 : σ),
      (new_classics_go R s1 s2 s3 s4 s5 n).map Classic.«attribute»
        = sampleList R.nextU16 s3 n
  | 0, _, _, _, _, _ => rfl
  | n + 1, s1, s2, s3, s4, s5 => by
    simp only [new_classics_go, sampleList, List.map_cons]
    rw [new_classics_go_map_attribute R n]

theorem new_classics_go_map_word_index (R : RngModel σ) :
    ∀ (n : Nat) (s1 s2 s3 s4 s5 : σ),
      (new_classics_go R s1 s2 s3 s4 s5 n).map Classic.word_index
        = sampleList R.nextU16 s4 n
  | 0, _, _, _, _, _ => rfl
  | n + 1, s1, s2, s3, s4, s5 => by
    simp only [new_classics_go, sampleList, List.map_cons]
    rw [new_classics_go_map_word_index R n]

theorem new_classics_go_map_is_exact (R : RngModel σ) :
    ∀ (n : Nat) (s1 s2 s3 s4 s5 : σ),
      (new_classics_go R s1 s2 s3 s4 s5 n).map Classic.is_exact
        = sampleList R.nextBool s5 n
  | 0, _, _, _, _, _ => rfl
  | n + 1, s1, s2, s3, s4, s5 => by
    simp only [new_classics_go, sampleList, List.map_cons]
    rw [new_classics_go_map_is_exact R n]

theorem represents_new (R : RngModel σ) (rng : σ) (len : Nat) :
    represents (DataOriented.new R rng len) (new_classics R rng len) :=
  ⟨(new_classics_go_map_query R len rng rng rng rng rng).symm,
   (new_classics_go_map_distance R len rng rng rng rng rng).symm,
   (new_classics_go_map_attribute R len rng rng rng rng rng).symm,
   (new_classics_go_map_word_index R len rng rng rng rng rng).symm,
   (new_classics_go_map_is_exact R len rng rng rng rng rng).symm⟩

/-! ### Records of a represented columnar view -/

/-- The default record used to totalize out-of-range accesses: all fields
are the defaults (`0` / `false`) of the field accessors. -/
def defaultClassic : Classic :=
  { query_index := 0, distance := 0, «attribute» := 0, word_index := 0,
    is_exact := false }

theorem getD_map_general (f : α → β) (l : List α) (i : Nat) (d : α) :
    (l.map f).getD i (f d) = f (l.getD i d) := by
  induction l generalizing i with
  | nil => simp
  | cons x xs ih => cases i <;> simp [ih]

theorem record_of_represents {d : DataOriented} {cs : List Classic}
    (h : represents d cs) (i : Nat) :
    d.record i = cs.getD i defaultClassic := by
  obtain ⟨h1, h2, h3, h4, h5⟩ := h
  have e1 := getD_map_general Classic.query_index cs i defaultClassic
  have e2 := getD_map_general Classic.distance cs i defaultClassic
  have e3 := getD_map_general Classic.«attribute» cs i defaultClassic
  have e4 := getD_map_general Classic.word_index cs i defaultClassic
  have e5 := getD_map_general Classic.is_exact cs i defaultClassic
  simp only [DataOriented.record, h1, h2, h3, h4, h5]
  simp only [defaultClassic] at e1 e2 e3 e4 e5
  rw [e1, e2, e3, e4, e5]
  rfl

theorem len_of_represents {d : DataOriented} {cs : List Classic}
    (h : represents d cs) : d.len = cs.length := by
  rw [DataOriented.len, h.1, List.length_map]

/-! ### The columnar sort agrees with the row-oriented reference sort -/

theorem except_bind_ok (a : α) (f : α → Except ε β) :
    (Except.ok a >>= f : Except ε β) = f a := rfl

theorem except_pure_eq (a : α) : (pure a : Except ε α) = Except.ok a := rfl

theorem map_getD_field {β : Type} (f : Classic → β) (dflt : β)
    (hd : dflt = f defaultClassic) (cs : List Classic) (P : List Nat) :
    P.map (fun i => (cs.map f).getD i dflt)
      = (P.map (fun i => cs.getD i defaultClassic)).map f := by
  subst hd
  rw [List.map_map]
  apply List.map_congr_left
  intro i _
  exact getD_map_general f cs i defaultClassic

theorem apply_fields_eq {d : DataOriented} {cs : List Classic}
    (h : represents d cs) {p : List Nat}
    (hPperm : List.Perm p (List.range d.len))
    (hPsorted : List.Sorted (fun a b => d.sortKey a ≤ d.sortKey b) p) :
    apply_permutations p d.query_index
        = Except.ok ((sort_unstable cs).map Classic.query_index) ∧
    apply_permutations p d.distance
        = Except.ok ((sort_unstable cs).map Classic.distance) ∧
    apply_permutations p d.«attribute»
        = Except.ok ((sort_unstable cs).map Classic.«attribute») ∧
    apply_permutations p d.word_index
        = Except.ok ((sort_unstable cs).map Classic.word_index) ∧
    apply_permutations p d.is_exact
        = Except.ok ((sort_unstable cs).map Classic.is_exact) := by
  have hrec := record_of_represents h
  obtain ⟨h1, h2, h3, h4, h5⟩ := h
  have hlen : d.len = cs.length := by rw [DataOriented.len, h1, List.length_map]
  have hPlen : p.length = d.len := by
    have := hPperm.length_eq
    simpa using this
  have hmem := mem_lt_of_perm_range hPperm
  have lq : d.query_index.length = d.len := rfl
  have ld : d.distance.length = d.len := by rw [h2, List.length_map, ← hlen]
  have la : d.«attribute».length = d.len := by rw [h3, List.length_map, ← hlen]
  have lw : d.word_index.length = d.len := by rw [h4, List.length_map, ← hlen]
  have lei : d.is_exact.length = d.len := by rw [h5, List.length_map, ← hlen]
  have hq := apply_permutations_eq_map p
    d.query_index 0 (by rw [hPlen, lq]) (fun i hi => lq.symm ▸ hmem i hi)
  have hd2 := apply_permutations_eq_map p
    d.distance 0 (by rw [hPlen, ld]) (fun i hi => ld.symm ▸ hmem i hi)
  have ha := apply_permutations_eq_map p
    d.«attribute» 0 (by rw [hPlen, la]) (fun i hi => la.symm ▸ hmem i hi)
  have hw := apply_permutations_eq_map p
    d.word_index 0 (by rw [hPlen, lw]) (fun i hi => lw.symm ▸ hmem i hi)
  have he := apply_permutations_eq_map p
    d.is_exact false (by rw [hPlen, lei]) (fun i hi => lei.symm ▸ hmem i hi)
  have hrangemap : (List.range d.len).map (fun i => cs.getD i defaultClassic) = cs := by
    rw [hlen]; exact map_getD_range cs defaultClassic
  have hLperm : List.Perm
      (p.map (fun i => cs.getD i defaultClassic)) cs := by
    have hmapped := hPperm.map (fun i => cs.getD i defaultClassic)
    rwa [hrangemap] at hmapped
  have hLsorted : List.Sorted (fun a b : Classic => a ≤ b)
      (p.map (fun i => cs.getD i defaultClassic)) := by
    refine List.Pairwise.map _ ?_ hPsorted
    intro a b hab
    simp only [DataOriented.sortKey] at hab
    rw [hrec a, hrec b] at hab
    exact hab
  have hSsorted : List.Sorted (fun a b : Classic => a ≤ b) (sort_unstable cs) := by
    haveI : IsTotal Classic fun a b => a ≤ b := ⟨fun a b => le_total a b⟩
    haveI : IsTrans Classic fun a b => a ≤ b := ⟨fun _ _ _ => le_trans⟩
    exact List.sorted_insertionSort _ cs
  have hSperm : List.Perm (sort_unstable cs) cs := List.perm_insertionSort _ cs
  have hL : p.map (fun i => cs.getD i defaultClassic) = sort_unstable cs := by
    haveI : IsAntisymm Classic fun a b => a ≤ b := ⟨fun _ _ => le_antisymm⟩
    exact List.eq_of_perm_of_sorted (hLperm.trans hSperm.symm) hLsorted hSsorted
  have hmq : p.map
      (fun i => d.query_index.getD i 0) = (sort_unstable cs).map Classic.query_index := by
    simp only [h1]
    rw [map_getD_field Classic.query_index 0 rfl, hL]
  have hmd : p.map
      (fun i => d.distance.getD i 0) = (sort_unstable cs).map Classic.distance := by
    simp only [h2]
    rw [map_getD_field Classic.distance 0 rfl, hL]
  have hma : p.map
      (fun i => d.«attribute».getD i 0) = (sort_unstable cs).map Classic.«attribute» := by
    simp only [h3]
    rw [map_getD_field Classic.«attribute» 0 rfl, hL]
  have hmw : p.map
      (fun i => d.word_index.getD i 0) = (sort_unstable cs).map Classic.word_index := by
    simp only [h4]
    rw [map_getD_field Classic.word_index 0 rfl, hL]
  have hme : p.map
      (fun i => d.is_exact.getD i false) = (sort_unstable cs).map Classic.is_exact := by
    simp only [h5]
    rw [map_getD_field Classic.is_exact false rfl, hL]
  rw [hq, hd2, ha, hw, he, hmq, hmd, hma, hmw, hme]
  exact ⟨rfl, rfl, rfl, rfl, rfl⟩

theorem sortDataOriented_eq_ok {d : DataOriented} {cs : List Classic}
    (h : represents d cs) :
    sortDataOriented d = Except.ok
      { query_index := (sort_unstable cs).map Classic.query_index
        distance := (sort_unstable cs).map Classic.distance
        «attribute» := (sort_unstable cs).map Classic.«attribute»
        word_index := (sort_unstable cs).map Classic.word_index
        is_exact := (sort_unstable cs).map Classic.is_exact } := by
  obtain ⟨hq, hd2, ha, hw, he⟩ := apply_fields_eq h
    (permutations_perm_range d.len d.sortKey) (permutations_sorted d.len d.sortKey)
  simp only [sortDataOriented, hq, hd2, ha, hw, he, except_bind_ok, except_pure_eq]

/-! ### Further helper lemmas about the gathering loop -/

theorem getElem?_eq_some_getD {l : List α} {j : Nat} (hj : j < l.length) (d : α) :
    l[j]? = some (l.getD j d) := by
  rw [List.getElem?_eq_getElem hj, List.getD_eq_getElem?_getD,
    List.getElem?_eq_getElem hj]
  rfl

theorem getD_irrel {l : List α} {j : Nat} (hj : j < l.length) (d1 d2 : α) :
    l.getD j d1 = l.getD j d2 := by
  rw [List.getD_eq_getElem?_getD, List.getD_eq_getElem?_getD,
    List.getElem?_eq_getElem hj]
  rfl

theorem getD_mem_of_lt (P : List Nat) (j : Nat) (hj : j < P.length) :
    P.getD j 0 ∈ P := by
  rw [List.getD_eq_getElem?_getD, List.getElem?_eq_getElem hj]
  exact List.getElem_mem hj

theorem gatherElems_ok_of_bounds (vec : List α) (P : List Nat)
    (h : ∀ i ∈ P, i < vec.length) : ∃ l, gatherElems vec P = Except.ok l := by
  induction P with
  | nil => exact ⟨[], rfl⟩
  | cons i rest ih =>
    have hi : i < vec.length := h i (List.mem_cons_self i rest)
    obtain ⟨l, hl⟩ := ih (fun j hj => h j (List.mem_cons_of_mem i hj))
    exact ⟨vec[i] :: l, by simp only [gatherElems, List.getElem?_eq_getElem hi, hl]⟩

theorem gatherElems_getElem? {vec : List α} {P : List Nat} {l : List α}
    (h : gatherElems vec P = Except.ok l) (j : Nat) :
    l[j]? = (P[j]?.bind fun i => vec[i]?) := by
  induction P generalizing l j with
  | nil =>
    obtain rfl : ([] : List α) = l := Except.ok.inj h
    simp
  | cons i rest ih =>
    rw [gatherElems] at h
    split at h
    · exact absurd h (by simp)
    · rename_i x hv
      split at h
      · exact absurd h (by simp)
      · rename_i xs hg
        obtain rfl := Except.ok.inj h
        cases j with
        | zero => simpa using hv.symm
        | succ j => simpa using ih hg j

theorem gatherElems_length {vec : List α} {P : List Nat} {l : List α}
    (h : gatherElems vec P = Except.ok l) : l.length = P.length := by
  induction P generalizing l with
  | nil =>
    obtain rfl : ([] : List α) = l := Except.ok.inj h
    rfl
  | cons i rest ih =>
    rw [gatherElems] at h
    split at h
    · exact absurd h (by simp)
    · rename_i x hv
      split at h
      · exact absurd h (by simp)
      · rename_i xs hg
        obtain rfl := Except.ok.inj h
        simpa using ih hg

/-! ### Claims -/

/-- C2: for every length `N` and every key function `f` into a totally
ordered type, `permutations_unstable_by_key N f` contains every index of
`0..N` exactly once (it is a permutation of `List.range N`) and `f` applied
to consecutive elements is non-decreasing. -/
theorem claim_C2 [LinearOrder K] (len : Nat) (f : Nat → K) :
    List.Perm (permutations_unstable_by_key len f) (List.range len) ∧
      List.Chain' (fun a b => f a ≤ f b) (permutations_unstable_by_key len f) :=
  ⟨permutations_perm_range len f, (permutations_sorted len f).chain'⟩

/-- C3: for every permutation `P` of `0..N` and sequence `S` of length `N`,
`apply_permutations P S` succeeds with a new sequence satisfying
`S'[j] = S[P[j]]` for every `j` in `0..N` (stated via `getD`, independent of
the default). The permutation argument is taken by shared reference in the
source and by value here, so it is not mutated by the call. -/
theorem claim_C3 {α : Type} {N : Nat} (P : List Nat) (S : List α)
    (hP : List.Perm P (List.range N)) (hS : S.length = N) :
    ∃ S', apply_permutations P S = Except.ok S' ∧
      ∀ j, j < N → ∀ dflt : α, S'.getD j dflt = S.getD (P.getD j 0) dflt := by
  have hbound : ∀ i ∈ P, i < S.length := fun i hi => by
    rw [hS]; exact mem_lt_of_perm_range hP i hi
  have hlen : P.length = S.length := by
    have := hP.length_eq; rw [hS]; simpa using this
  obtain ⟨l, hl⟩ := gatherElems_ok_of_bounds S P hbound
  refine ⟨l, ?_, ?_⟩
  · rw [apply_permutations, if_pos hlen]; exact hl
  · intro j hj dflt
    have hjP : j < P.length := by rw [hlen, hS]; exact hj
    have h2 : l[j]? = S[P.getD j 0]? := by
      rw [gatherElems_getElem? hl j, getElem?_eq_some_getD hjP 0]
      rfl
    rw [List.getD_eq_getElem?_getD, List.getD_eq_getElem?_getD, h2]

theorem claim_C3_witness :
    ∃ S', apply_permutations [1, 0] [10, 20] = Except.ok S' ∧
      ∀ j, j < 2 → ∀ dflt : Nat,
        S'.getD j dflt = [10, 20].getD ([1, 0].getD j 0) dflt :=
  claim_C3 (N := 2) [1, 0] [10, 20] (by decide) (by decide)

/-- C4: whenever the index argument was produced by
`permutations_unstable_by_key` over the target's own length, every totalized
unchecked access inside `apply_permutations` is in bounds: the call succeeds
and in particular never reaches the out-of-bounds branch, so validation at
the permutation's construction boundary suffices. -/
theorem claim_C4 {α : Type} [LinearOrder K] (S : List α) (f : Nat → K) :
    (∃ S', apply_permutations (permutations_unstable_by_key S.length f) S
        = Except.ok S') ∧
      ∀ i, apply_permutations (permutations_unstable_by_key S.length f) S
        ≠ Except.error (ApplyError.outOfBounds i) := by
  have hbound : ∀ i ∈ permutations_unstable_by_key S.length f, i < S.length :=
    mem_lt_of_perm_range (permutations_perm_range S.length f)
  obtain ⟨l, hl⟩ := gatherElems_ok_of_bounds S _ hbound
  have hok : apply_permutations (permutations_unstable_by_key S.length f) S
      = Except.ok l := by
    rw [apply_permutations, if_pos (permutations_length S.length f)]; exact hl
  exact ⟨⟨l, hok⟩, fun i => by simp [hok]⟩

/-- C5: on a length mismatch, `apply_permutations` fails immediately with the
contract-failure error (the totalized `assert_eq!` panic), before any element
access: the result is `lengthMismatch`, never an element-access outcome, and
the caller's sequence is unchanged (the embedding returns no new sequence). -/
theorem claim_C5 {α : Type} (P : List Nat) (S : List α)
    (h : P.length ≠ S.length) :
    apply_permutations P S = Except.error ApplyError.lengthMismatch := by
  rw [apply_permutations, if_neg h]

theorem claim_C5_witness :
    apply_permutations [0] ([] : List Nat)
      = Except.error ApplyError.lengthMismatch :=
  claim_C5 [0] ([] : List Nat) (by decide)

/-- C6: applying a permutation of `0..N` to a sequence of length `N` yields a
sequence of the same length with exactly the same multiset of elements. -/
theorem claim_C6 {α : Type} {N : Nat} (P : List Nat) (S : List α)
    (hP : List.Perm P (List.range N)) (hS : S.length = N) :
    ∃ S', apply_permutations P S = Except.ok S' ∧ S'.length = S.length ∧
      (S' : Multiset α) = (S : Multiset α) := by
  have hbound : ∀ i ∈ P, i < S.length := fun i hi => by
    rw [hS]; exact mem_lt_of_perm_range hP i hi
  have hlen : P.length = S.length := by
    have := hP.length_eq; rw [hS]; simpa using this
  rcases S with _ | ⟨s, rest⟩
  · have hP0 : P = [] := List.length_eq_zero.mp (by simpa using hlen)
    subst hP0
    exact ⟨[], rfl, rfl, rfl⟩
  · have hmap := apply_permutations_eq_map P (s :: rest) s hlen hbound
    refine ⟨_, hmap, ?_, ?_⟩
    · rw [List.length_map, hlen]
    · have h1 : (List.range N).map (fun i => (s :: rest).getD i s) = s :: rest := by
        rw [← hS]; exact map_getD_range (s :: rest) s
      have h2 := hP.map (fun i => (s :: rest).getD i s)
      rw [h1] at h2
      exact Multiset.coe_eq_coe.mpr h2

theorem claim_C6_witness :
    ∃ S', apply_permutations [1, 0] [3, 4] = Except.ok S' ∧
      S'.length = [3, 4].length ∧ (S' : Multiset Nat) = ([3, 4] : List Nat) :=
  claim_C6 (N := 2) [1, 0] [3, 4] (by decide) (by decide)

/-- C7: applying the identity permutation `[0, 1, ..., N-1]` with
`apply_permutations` returns the sequence unchanged. -/
theorem claim_C7 {α : Type} (S : List α) :
    apply_permutations (List.range S.length) S = Except.ok S := by
  rcases S with _ | ⟨s, rest⟩
  · rfl
  · rw [apply_permutations, if_pos (by rw [List.length_range])]
    rw [gatherElems_eq_map (s :: rest) _ s (fun i hi => List.mem_range.mp hi)]
    rw [map_getD_range]

/-- C10: `apply_permutations` only checks length equality at its boundary; it
never checks that the index list is a bijection. Duplicate in-bounds entries
are accepted and the gather semantics `S'[j] = S[P[j]]` still holds. -/
theorem claim_C10 {α : Type} (P : List Nat) (S : List α)
    (hlen : P.length = S.length) (hbound : ∀ i ∈ P, i < S.length) :
    ∃ S', apply_permutations P S = Except.ok S' ∧
      ∀ j, j < P.length → S'[j]? = S[P.getD j 0]? := by
  obtain ⟨l, hl⟩ := gatherElems_ok_of_bounds S P hbound
  refine ⟨l, by rw [apply_permutations, if_pos hlen]; exact hl, ?_⟩
  intro j hj
  rw [gatherElems_getElem? hl j, getElem?_eq_some_getD hj 0]
  rfl

theorem claim_C10_witness :
    ∃ S', apply_permutations [0, 0] [5, 7] = Except.ok S' ∧
      ∀ j, j < ([0, 0] : List Nat).length →
        S'[j]? = ([5, 7] : List Nat)[([0, 0] : List Nat).getD j 0]? :=
  claim_C10 [0, 0] [5, 7] (by decide) (by decide)

/-- C1: when the row-oriented and columnar views represent the same record
sequence, sorting the rows by their total lexicographic order and,
independently, sorting the columnar view (permutation from the five-field
key, applied to each field sequence) yield, at every index `i` in `0..N`,
the same five-field record. -/
theorem claim_C1 {d : DataOriented} {cs : List Classic} (h : represents d cs) :
    ∃ d', sortDataOriented d = Except.ok d' ∧
      ∀ i, i < d.len → d'.record i = (sort_unstable cs).getD i defaultClassic := by
  refine ⟨_, sortDataOriented_eq_ok h, fun i _ => ?_⟩
  exact record_of_represents ⟨rfl, rfl, rfl, rfl, rfl⟩ i

/-- A small concrete row-oriented dataset used to instantiate the claims. -/
def csEx : List Classic :=
  [{ query_index := 3, distance := 0, «attribute» := 0, word_index := 0, is_exact := false },
   { query_index := 1, distance := 0, «attribute» := 0, word_index := 0, is_exact := true },
   { query_index := 1, distance := 0, «attribute» := 0, word_index := 0, is_exact := false }]

/-- The columnar view of `csEx`. -/
def dEx : DataOriented :=
  { query_index := [3, 1, 1], distance := [0, 0, 0], «attribute» := [0, 0, 0],
    word_index := [0, 0, 0], is_exact := [false, true, false] }

theorem claim_C1_witness :
    ∃ d', sortDataOriented dEx = Except.ok d' ∧
      ∀ i, i < dEx.len → d'.record i = (sort_unstable csEx).getD i defaultClassic :=
  claim_C1 (by decide)

/-- C8: re-running the columnar sort on the same input yields equal results
(the embedding is a function, so the two runs coincide definitionally); each
run agrees field-by-field, per-index with the row-oriented reference sort;
and moreover any index permutation that is sorted by the merged five-field
key — any tie-break an unstable sort could choose — produces the same
per-field sequences, equal to the reference. -/
theorem claim_C8 {d : DataOriented} {cs : List Classic} (h : represents d cs) :
    sortDataOriented d = sortDataOriented d ∧
    (∃ d', sortDataOriented d = Except.ok d' ∧ represents d' (sort_unstable cs)) ∧
    ∀ p : List Nat, List.Perm p (List.range d.len) →
      List.Sorted (fun a b => d.sortKey a ≤ d.sortKey b) p →
      apply_permutations p d.query_index
          = Except.ok ((sort_unstable cs).map Classic.query_index) ∧
      apply_permutations p d.distance
          = Except.ok ((sort_unstable cs).map Classic.distance) ∧
      apply_permutations p d.«attribute»
          = Except.ok ((sort_unstable cs).map Classic.«attribute») ∧
      apply_permutations p d.word_index
          = Except.ok ((sort_unstable cs).map Classic.word_index) ∧
      apply_permutations p d.is_exact
          = Except.ok ((sort_unstable cs).map Classic.is_exact) :=
  ⟨rfl, ⟨_, sortDataOriented_eq_ok h, rfl, rfl, rfl, rfl, rfl⟩,
   fun _ hp hs => apply_fields_eq h hp hs⟩

theorem claim_C8_witness :
    sortDataOriented dEx = sortDataOriented dEx ∧
    (∃ d', sortDataOriented dEx = Except.ok d' ∧ represents d' (sort_unstable csEx)) ∧
    ∀ p : List Nat, List.Perm p (List.range dEx.len) →
      List.Sorted (fun a b => dEx.sortKey a ≤ dEx.sortKey b) p →
      apply_permutations p dEx.query_index
          = Except.ok ((sort_unstable csEx).map Classic.query_index) ∧
      apply_permutations p dEx.distance
          = Except.ok ((sort_unstable csEx).map Classic.distance) ∧
      apply_permutations p dEx.«attribute»
          = Except.ok ((sort_unstable csEx).map Classic.«attribute») ∧
      apply_permutations p dEx.word_index
          = Except.ok ((sort_unstable csEx).map Classic.word_index) ∧
      apply_permutations p dEx.is_exact
          = Except.ok ((sort_unstable csEx).map Classic.is_exact) :=
  claim_C8 (by decide)

/-- C9: building the row-oriented dataset with `new_classics` and the
columnar dataset with `DataOriented::new` from equal generator states yields
views representing identical record sequences: at every index below `len`
the row record's five fields equal the columnar field values at that index. -/
theorem claim_C9 {σ : Type} (R : RngModel σ) (rng : σ) (len i : Nat)
    (_hi : i < len) :
    (new_classics R rng len).getD i defaultClassic
      = (DataOriented.new R rng len).record i :=
  (record_of_represents (represents_new R rng len) i).symm

/-- A small concrete deterministic generator model used to instantiate C9. -/
def rngEx : RngModel Nat :=
  { nextU32 := fun s => (s + 1, s + 2)
    nextU8 := fun s => (2 * s, s + 1)
    nextU16 := fun s => (3 * s, s + 5)
    nextBool := fun s => (decide (s % 2 = 0), s + 3) }

theorem claim_C9_witness :
    (new_classics rngEx 0 3).getD 2 defaultClassic
      = (DataOriented.new rngEx 0 3).record 2 :=
  claim_C9 rngEx 0 3 2 (by decide)
